import Mathlib

/-!
Verification of the text-positioning engine of rapid_doc (src/src/main.rs).

The core walks a decoded page content stream (a list of operations, each an
operator name with typed operands), maintains the placement state
(current_font_size, current_x, current_y), and emits TextItem records for the
show-text operators Tj and TJ.  Machine floats (f32) are modelled as exact
rationals; byte strings are lists of byte values; decoded text is modelled as
the list of Unicode scalar values produced by the decoder.
-/

namespace RapidDoc

/-- Modelled from the spec (section 3) and the lopdf operand type used by the
source: a tagged union of operand kinds.  Only the Number, ByteString and
Array kinds carry data the core inspects; the remaining kinds are opaque to
the engine.  The source's numeric coercion target f32 is modelled as Rat. -/
inductive Object where
  | number (value : Rat)
  | string (bytes : List Nat)
  | name (label : String)
  | array (elements : List Object)
  | dictionary
  | reference
  | boolean (value : Bool)
  | null

/-- Modelled from the spec (section 4.1): safe coercion of an operand to a
number, succeeding exactly on the Number kind (lopdf Object::as_f32 used at
main.rs lines 68, 77, 87). -/
def Object.as_f32 : Object → Option Rat
  | Object.number value => some value
  | _ => none

/-- Whether an operand is a ByteString (an Object::String in the source). -/
def Object.isStringObj : Object → Bool
  | Object.string _ => true
  | _ => false

/-- Whether an operand is an Array. -/
def Object.isArrayObj : Object → Bool
  | Object.array _ => true
  | _ => false

/-- One decoded content-stream operation: an operator name and its operands
(lopdf content::Operation, consumed at main.rs line 52). -/
structure Operation where
  operator : String
  operands : List Object

/-- Output record of the engine (main.rs lines 5-11).  The decoded text is
the list of Unicode scalar values; x, y, font_size snapshot the state. -/
structure TextItem where
  text : List Nat
  x : Rat
  y : Rat
  font_size : Rat
  deriving DecidableEq

/-- The three mutable locals of process_content_stream (main.rs lines 48-50),
in declaration order. -/
structure TextPlacementState where
  font_size : Rat
  x : Rat
  y : Rat
  deriving DecidableEq

/-- Initial state of each pass (main.rs lines 48-50): all three zero. -/
def initState : TextPlacementState := ⟨0, 0, 0⟩

/-- A UTF-8 continuation byte: 0x80..0xBF. -/
abbrev utf8Cont (c : Nat) : Prop := 0x80 ≤ c ∧ c ≤ 0xBF

/-- Admissible second byte of a three-byte UTF-8 sequence with lead b
(Rust core::str validation ranges: E0 A0..BF, E1..EC 80..BF, ED 80..9F,
EE..EF 80..BF). -/
abbrev utf8Second3 (b c : Nat) : Prop :=
  (b = 0xE0 ∧ 0xA0 ≤ c ∧ c ≤ 0xBF) ∨
  (0xE1 ≤ b ∧ b ≤ 0xEC ∧ utf8Cont c) ∨
  (b = 0xED ∧ 0x80 ≤ c ∧ c ≤ 0x9F) ∨
  (0xEE ≤ b ∧ b ≤ 0xEF ∧ utf8Cont c)

/-- Admissible second byte of a four-byte UTF-8 sequence with lead b
(Rust core::str validation ranges: F0 90..BF, F1..F3 80..BF, F4 80..8F). -/
abbrev utf8Second4 (b c : Nat) : Prop :=
  (b = 0xF0 ∧ 0x90 ≤ c ∧ c ≤ 0xBF) ∨
  (0xF1 ≤ b ∧ b ≤ 0xF3 ∧ utf8Cont c) ∨
  (b = 0xF4 ∧ 0x80 ≤ c ∧ c ≤ 0x8F)

/-- Strict UTF-8 decoding, modelling Rust String::from_utf8 (main.rs line
143): returns the scalar values if the bytes are valid UTF-8, none
otherwise. -/
def utf8DecodeStrict : List Nat → Option (List Nat)
  | [] => some []
  | b :: rest =>
    if b ≤ 0x7F then
      (utf8DecodeStrict rest).map (fun cs => b :: cs)
    else if 0xC2 ≤ b ∧ b ≤ 0xDF then
      match rest with
      | c1 :: rest1 =>
        if utf8Cont c1 then
          (utf8DecodeStrict rest1).map
            (fun cs => ((b - 0xC0) * 0x40 + (c1 - 0x80)) :: cs)
        else none
      | [] => none
    else if 0xE0 ≤ b ∧ b ≤ 0xEF then
      match rest with
      | c1 :: c2 :: rest2 =>
        if utf8Second3 b c1 ∧ utf8Cont c2 then
          (utf8DecodeStrict rest2).map
            (fun cs => ((b - 0xE0) * 0x1000 + (c1 - 0x80) * 0x40 + (c2 - 0x80)) :: cs)
        else none
      | _ => none
    else if 0xF0 ≤ b ∧ b ≤ 0xF4 then
      match rest with
      | c1 :: c2 :: c3 :: rest3 =>
        if utf8Second4 b c1 ∧ utf8Cont c2 ∧ utf8Cont c3 then
          (utf8DecodeStrict rest3).map
            (fun cs => ((b - 0xF0) * 0x40000 + (c1 - 0x80) * 0x1000 +
                        (c2 - 0x80) * 0x40 + (c3 - 0x80)) :: cs)
        else none
      | _ => none
    else none

/-- Worker for the lossy UTF-8 decoder, structurally recursive on a fuel
counter.  Every step consumes at least one byte of the list, so running the
worker with fuel equal to the list length (as utf8DecodeLossy does) never
exhausts the fuel. -/
def utf8LossyGo : Nat → List Nat → List Nat
  | 0, _ => []
  | _ + 1, [] => []
  | fuel + 1, b :: rest =>
    if b ≤ 0x7F then b :: utf8LossyGo fuel rest
    else if 0xC2 ≤ b ∧ b ≤ 0xDF then
      match rest with
      | c1 :: rest1 =>
        if utf8Cont c1 then
          ((b - 0xC0) * 0x40 + (c1 - 0x80)) :: utf8LossyGo fuel rest1
        else 0xFFFD :: utf8LossyGo fuel (c1 :: rest1)
      | [] => [0xFFFD]
    else if 0xE0 ≤ b ∧ b ≤ 0xEF then
      match rest with
      | c1 :: rest1 =>
        if utf8Second3 b c1 then
          match rest1 with
          | c2 :: rest2 =>
            if utf8Cont c2 then
              ((b - 0xE0) * 0x1000 + (c1 - 0x80) * 0x40 + (c2 - 0x80)) ::
                utf8LossyGo fuel rest2
            else 0xFFFD :: utf8LossyGo fuel (c2 :: rest2)
          | [] => [0xFFFD]
        else 0xFFFD :: utf8LossyGo fuel (c1 :: rest1)
      | [] => [0xFFFD]
    else if 0xF0 ≤ b ∧ b ≤ 0xF4 then
      match rest with
      | c1 :: rest1 =>
        if utf8Second4 b c1 then
          match rest1 with
          | c2 :: rest2 =>
            if utf8Cont c2 then
              match rest2 with
              | c3 :: rest3 =>
                if utf8Cont c3 then
                  ((b - 0xF0) * 0x40000 + (c1 - 0x80) * 0x1000 +
                   (c2 - 0x80) * 0x40 + (c3 - 0x80)) :: utf8LossyGo fuel rest3
                else 0xFFFD :: utf8LossyGo fuel (c3 :: rest3)
              | [] => [0xFFFD]
            else 0xFFFD :: utf8LossyGo fuel (c2 :: rest2)
          | [] => [0xFFFD]
        else 0xFFFD :: utf8LossyGo fuel (c1 :: rest1)
      | [] => [0xFFFD]
    else 0xFFFD :: utf8LossyGo fuel rest

/-- Lossy UTF-8 decoding, modelling Rust String::from_utf8_lossy (main.rs
line 116): each maximal ill-formed subpart is replaced by one replacement
character U+FFFD, per the WHATWG decoding algorithm used by Rust. -/
def utf8DecodeLossy (bytes : List Nat) : List Nat :=
  utf8LossyGo bytes.length bytes

/-- main.rs lines 138-147: strict decode of a ByteString operand, empty
string on decode failure or on any non-ByteString operand. -/
def extract_text_from_object (obj : Object) : List Nat :=
  match obj with
  | Object.string bytes => (utf8DecodeStrict bytes).getD []
  | _ => []

/-- Inner loop of the TJ arm (main.rs lines 112-120): concatenate the lossy
decodings of the ByteString elements of the array, skipping the rest. -/
def combinedText (arr : List Object) : List Nat :=
  arr.foldl
    (fun acc item =>
      match item with
      | Object.string bytes => acc ++ utf8DecodeLossy bytes
      | _ => acc)
    []

/-- One iteration of the operation loop (main.rs lines 52-133): dispatch on
the operator name, returning the updated state and the items pushed by this
operation (in push order). -/
def step (s : TextPlacementState) (operation : Operation) :
    TextPlacementState × List TextItem :=
  let operator := operation.operator
  let operands := operation.operands
  if operator = "BT" then
    ({ s with x := 0, y := 0 }, [])
  else if operator = "Tf" then
    if 2 ≤ operands.length then
      match Object.as_f32 (operands.getD 1 Object.null) with
      | some size => ({ s with font_size := size }, [])
      | none => (s, [])
    else (s, [])
  else if operator = "Td" ∨ operator = "TD" then
    if 2 ≤ operands.length then
      match Object.as_f32 (operands.getD 0 Object.null),
            Object.as_f32 (operands.getD 1 Object.null) with
      | some tx, some ty => ({ s with x := s.x + tx, y := s.y + ty }, [])
      | _, _ => (s, [])
    else (s, [])
  else if operator = "Tm" then
    if 6 ≤ operands.length then
      match Object.as_f32 (operands.getD 4 Object.null),
            Object.as_f32 (operands.getD 5 Object.null) with
      | some e, some f => ({ s with x := e, y := f }, [])
      | _, _ => (s, [])
    else (s, [])
  else if operator = "Tj" then
    match operands.head? with
    | some text_obj =>
        (s, [{ text := extract_text_from_object text_obj,
               x := s.x, y := s.y, font_size := s.font_size }])
    | none => (s, [])
  else if operator = "TJ" then
    match operands.head? with
    | some (Object.array arr) =>
        (s, [{ text := combinedText arr,
               x := s.x, y := s.y, font_size := s.font_size }])
    | _ => (s, [])
  else (s, [])

/-- The operation loop of process_content_stream, parameterized by the
current state: processes the operations in order, accumulating the emitted
items. -/
def processOps (s : TextPlacementState) : List Operation → List TextItem
  | [] => []
  | op :: rest => (step s op).2 ++ processOps (step s op).1 rest

/-- main.rs lines 45-136: process one page content stream starting from the
initial state. -/
def process_content_stream (operations : List Operation) : List TextItem :=
  processOps initState operations

/-- The pure extraction function exposed by the core (spec section 4.3):
identical to process_content_stream on the decoded operation list. -/
def extract : List Operation → List TextItem :=
  process_content_stream

/-- Per-element decoding used to restate the TJ accumulator: a ByteString
element contributes its lossy decoding, any other element contributes
nothing. -/
def tjElemDecode : Object → List Nat
  | Object.string bytes => utf8DecodeLossy bytes
  | _ => []

/-- The operator names the engine dispatches on (main.rs lines 57-131);
every other operator name falls into the catch-all arm. -/
def recognizedOperators : List String :=
  ["BT", "Tf", "Td", "TD", "Tm", "Tj", "TJ"]

/-- Number of Tj operations in a stream. -/
def tjCount (ops : List Operation) : Nat :=
  (ops.filter (fun op => op.operator == "Tj")).length

/-- Number of TJ operations in a stream. -/
def tjArrayCount (ops : List Operation) : Nat :=
  (ops.filter (fun op => op.operator == "TJ")).length

lemma combinedText_foldl (acc : List Nat) (arr : List Object) :
    arr.foldl
      (fun acc item =>
        match item with
        | Object.string bytes => acc ++ utf8DecodeLossy bytes
        | _ => acc)
      acc = acc ++ (arr.map tjElemDecode).flatten := by
  induction arr generalizing acc with
  | nil => simp
  | cons o rest ih => cases o <;> simp [List.foldl_cons, tjElemDecode, ih]

lemma combinedText_eq_join (arr : List Object) :
    combinedText arr = (arr.map tjElemDecode).flatten := by
  simpa using combinedText_foldl [] arr

lemma step_unrecognized (s : TextPlacementState) (op : Operation)
    (h : op.operator ∉ recognizedOperators) : step s op = (s, []) := by
  simp only [recognizedOperators, List.mem_cons, List.not_mem_nil, or_false,
    not_or] at h
  obtain ⟨h1, h2, h3, h4, h5, h6, h7⟩ := h
  simp [step, h1, h2, h3, h4, h5, h6, h7]

/-- C2: every TJ operation whose first operand is an Array emits exactly one
TextItem whose text is the concatenation, in array order, of the lossy
decodings of the ByteString elements; numeric and other elements contribute
nothing and do not split the emission. -/
theorem C2_tj_array_single_emission (s : TextPlacementState) (op : Operation)
    (arr : List Object) (hop : op.operator = "TJ")
    (hhd : op.operands.head? = some (Object.array arr)) :
    (step s op).2 =
      [⟨(arr.map tjElemDecode).flatten, s.x, s.y, s.font_size⟩] := by
  simp [step, hop, hhd, combinedText_eq_join]

/-- C2 witness: the input [TJ(["Hel", -100, "lo"])] yields exactly one
TextItem with text "Hello" at the initial state. -/
theorem C2_witness :
    (step initState ⟨"TJ", [Object.array [Object.string [72, 101, 108],
        Object.number (-100), Object.string [108, 111]]]⟩).2 =
      [⟨[72, 101, 108, 108, 111], 0, 0, 0⟩] := by
  have h := C2_tj_array_single_emission initState
    ⟨"TJ", [Object.array [Object.string [72, 101, 108],
        Object.number (-100), Object.string [108, 111]]]⟩
    [Object.string [72, 101, 108], Object.number (-100), Object.string [108, 111]]
    rfl rfl
  have h1 : utf8DecodeLossy [72, 101, 108] = [72, 101, 108] := by decide
  have h2 : utf8DecodeLossy [108, 111] = [108, 111] := by decide
  rw [h]
  simp [tjElemDecode, h1, h2, initState]

/-- C3: a BT operation sets x and y to 0 and leaves font_size unchanged,
whatever its operands; consequently [BT, Td(5,5), BT, Tj("a")] emits one
TextItem at x=0, y=0 with font_size 0 (never set). -/
theorem C3_bt_resets_position :
    (∀ (s : TextPlacementState) (ops : List Object),
        step s ⟨"BT", ops⟩ = ({ s with x := 0, y := 0 }, [])) ∧
    extract [⟨"BT", []⟩, ⟨"Td", [Object.number 5, Object.number 5]⟩,
             ⟨"BT", []⟩, ⟨"Tj", [Object.string [97]]⟩] =
      [⟨[97], 0, 0, 0⟩] := by
  constructor
  · intro s ops
    simp [step]
  · have h : utf8DecodeStrict [97] = some [97] := by decide
    simp [extract, process_content_stream, processOps, step,
          extract_text_from_object, initState, Object.as_f32, h]

/-- C4: a Tm operation with at least 6 operands whose fifth and sixth
operands coerce to numbers e and f sets x to e and y to f, emitting nothing
and leaving font_size unchanged; the first four operands are ignored. -/
theorem C4_tm_sets_translation (s : TextPlacementState) (op : Operation)
    (e f : Rat) (hop : op.operator = "Tm") (hlen : 6 ≤ op.operands.length)
    (he : Object.as_f32 (op.operands.getD 4 Object.null) = some e)
    (hf : Object.as_f32 (op.operands.getD 5 Object.null) = some f) :
    step s op = ({ s with x := e, y := f }, []) := by
  simp only [List.getD_eq_getElem?_getD] at he hf
  simp [step, hop, hlen, he, hf]

/-- C4 witness: [Tm(2,0,0,2,10,20), Tj("x")] emits one TextItem at x=10,
y=20 despite the scale components 2,0,0,2. -/
theorem C4_witness :
    step initState ⟨"Tm", [Object.number 2, Object.number 0, Object.number 0,
        Object.number 2, Object.number 10, Object.number 20]⟩ =
      ({ initState with x := 10, y := 20 }, []) ∧
    extract [⟨"Tm", [Object.number 2, Object.number 0, Object.number 0,
        Object.number 2, Object.number 10, Object.number 20]⟩,
      ⟨"Tj", [Object.string [120]]⟩] = [⟨[120], 10, 20, 0⟩] := by
  refine ⟨C4_tm_sets_translation initState _ 10 20 rfl (by decide) rfl rfl, ?_⟩
  decide

/-- C5: a Td or TD operation with at least 2 operands whose first two
operands coerce to numbers tx and ty updates the position additively:
x becomes x + tx and y becomes y + ty, with nothing emitted and font_size
unchanged. -/
theorem C5_td_additive (s : TextPlacementState) (op : Operation)
    (tx ty : Rat) (hop : op.operator = "Td" ∨ op.operator = "TD")
    (hlen : 2 ≤ op.operands.length)
    (htx : Object.as_f32 (op.operands.getD 0 Object.null) = some tx)
    (hty : Object.as_f32 (op.operands.getD 1 Object.null) = some ty) :
    step s op = ({ s with x := s.x + tx, y := s.y + ty }, []) := by
  simp only [List.getD_eq_getElem?_getD] at htx hty
  rcases hop with hop | hop <;> simp [step, hop, hlen, htx, hty]

/-- C5 witness: [Td(1,1), Td(2,2), Tj("x")] emits one TextItem at x=3, y=3,
and the first Td applied to the initial state adds to the current position. -/
theorem C5_witness :
    step initState ⟨"Td", [Object.number 1, Object.number 1]⟩ =
      ({ initState with x := initState.x + 1, y := initState.y + 1 }, []) ∧
    extract [⟨"Td", [Object.number 1, Object.number 1]⟩,
             ⟨"Td", [Object.number 2, Object.number 2]⟩,
             ⟨"Tj", [Object.string [120]]⟩] = [⟨[120], 3, 3, 0⟩] := by
  refine ⟨C5_td_additive initState _ 1 1 (Or.inl rfl) (by decide) rfl rfl, ?_⟩
  have h : utf8DecodeStrict [120] = some [120] := by decide
  simp [extract, process_content_stream, processOps, step,
        extract_text_from_object, initState, Object.as_f32, h]
  norm_num

lemma step_emits_le_one (s : TextPlacementState) (op : Operation) :
    (step s op).2.length ≤ 1 := by
  unfold step
  dsimp only
  split_ifs <;> (try split) <;> simp

lemma step_no_emit (s : TextPlacementState) (op : Operation)
    (hTj : op.operator ≠ "Tj") (hTJ : op.operator ≠ "TJ") :
    (step s op).2 = [] := by
  unfold step
  dsimp only
  split_ifs with h1 h2 h3 h4 h5 h6 <;>
    first
      | (exact absurd h5 hTj)
      | (exact absurd h6 hTJ)
      | ((try split) <;> simp)

lemma tjCount_cons (op : Operation) (rest : List Operation) :
    tjCount (op :: rest) =
      (if op.operator = "Tj" then 1 else 0) + tjCount rest := by
  by_cases h : op.operator = "Tj"
  · simp [tjCount, List.filter_cons, h]
    omega
  · simp [tjCount, List.filter_cons, h]

lemma tjArrayCount_cons (op : Operation) (rest : List Operation) :
    tjArrayCount (op :: rest) =
      (if op.operator = "TJ" then 1 else 0) + tjArrayCount rest := by
  by_cases h : op.operator = "TJ"
  · simp [tjArrayCount, List.filter_cons, h]
    omega
  · simp [tjArrayCount, List.filter_cons, h]

/-- C7: extract terminates on every finite operation list (it is a total
function of the list) and returns at most one TextItem per Tj or TJ
operation: its length is bounded by the number of Tj operations plus the
number of TJ operations. -/
theorem C7_length_bound (ops : List Operation) :
    (extract ops).length ≤ tjCount ops + tjArrayCount ops := by
  suffices h : ∀ s, (processOps s ops).length ≤ tjCount ops + tjArrayCount ops by
    exact h initState
  induction ops with
  | nil => intro s; simp [processOps, tjCount, tjArrayCount]
  | cons op rest ih =>
    intro s
    have h1 := step_emits_le_one s op
    have h2 := ih (step s op).1
    rw [tjCount_cons, tjArrayCount_cons]
    simp only [processOps, List.length_append]
    by_cases hTj : op.operator = "Tj"
    · have hne : ("Tj" : String) ≠ "TJ" := by decide
      simp only [hTj, eq_self_iff_true, if_true, if_neg hne]
      omega
    · by_cases hTJ : op.operator = "TJ"
      · have hne : ("TJ" : String) ≠ "Tj" := by decide
        simp only [hTJ, eq_self_iff_true, if_true, if_neg hne]
        omega
      · have h0 := step_no_emit s op hTj hTJ
        simp only [if_neg hTj, if_neg hTJ, h0, List.length_nil]
        omega

/-- C8: inserting an operation whose operator name is outside the recognized
vocabulary BT, Tf, Td, TD, Tm, Tj, TJ at any position yields exactly the
same output as the input without it. -/
theorem C8_unrecognized_insertion (l1 l2 : List Operation) (op : Operation)
    (h : op.operator ∉ recognizedOperators) :
    extract (l1 ++ op :: l2) = extract (l1 ++ l2) := by
  suffices hs : ∀ s, processOps s (l1 ++ op :: l2) = processOps s (l1 ++ l2) by
    exact hs initState
  induction l1 with
  | nil =>
    intro s
    simp [processOps, step_unrecognized s op h]
  | cons a rest ih =>
    intro s
    simp only [List.cons_append, processOps, List.append_eq, ih]

/-- C8 witness: inserting the unrecognized operator cm between a Td and a Tj
leaves the output unchanged. -/
theorem C8_witness :
    extract [⟨"Td", [Object.number 1, Object.number 2]⟩, ⟨"cm", []⟩,
             ⟨"Tj", [Object.string [97]]⟩] =
      extract [⟨"Td", [Object.number 1, Object.number 2]⟩,
               ⟨"Tj", [Object.string [97]]⟩] :=
  C8_unrecognized_insertion [⟨"Td", [Object.number 1, Object.number 2]⟩]
    [⟨"Tj", [Object.string [97]]⟩] ⟨"cm", []⟩ (by decide)

/-- C9: extract is deterministic and stateless across calls: two runs on the
same operation list give identical outputs, and every call processes the
list from the initial state x=0, y=0, font_size=0. -/
theorem C9_deterministic_stateless (ops : List Operation) :
    extract ops = extract ops ∧
    extract ops = processOps { font_size := 0, x := 0, y := 0 } ops :=
  ⟨rfl, rfl⟩

/-- C10: Tj and TJ operations never modify the placement state, every item
they emit snapshots the state exactly, and no operator outside BT, Tf, Td,
TD, Tm changes the state. -/
theorem C10_show_preserves_state (s : TextPlacementState) (op : Operation) :
    ((op.operator = "Tj" ∨ op.operator = "TJ") →
      (step s op).1 = s ∧
      ∀ it ∈ (step s op).2,
        it.x = s.x ∧ it.y = s.y ∧ it.font_size = s.font_size) ∧
    (op.operator ∉ ["BT", "Tf", "Td", "TD", "Tm"] → (step s op).1 = s) := by
  have hshow : ∀ hop1 : op.operator = "Tj" ∨ op.operator = "TJ",
      (step s op).1 = s ∧
      ∀ it ∈ (step s op).2,
        it.x = s.x ∧ it.y = s.y ∧ it.font_size = s.font_size := by
    rintro (hop | hop)
    · cases hh : op.operands.head? with
      | none => simp [step, hop, hh]
      | some o => simp [step, hop, hh]
    · cases hh : op.operands.head? with
      | none => simp [step, hop, hh]
      | some o => cases o <;> simp [step, hop, hh]
  refine ⟨hshow, ?_⟩
  intro h
  simp only [List.mem_cons, List.not_mem_nil, or_false, not_or] at h
  obtain ⟨h1, h2, h3, h4, h5⟩ := h
  by_cases hTj : op.operator = "Tj"
  · exact (hshow (Or.inl hTj)).1
  · by_cases hTJ : op.operator = "TJ"
    · exact (hshow (Or.inr hTJ)).1
    · have h0 := step_unrecognized s op
        (by simp [recognizedOperators, h1, h2, h3, h4, h5, hTj, hTJ])
      simp [h0]

/-- C10 witness: a concrete Tj operation leaves a concrete state unchanged. -/
theorem C10_witness :
    (step ⟨1, 2, 3⟩ ⟨"Tj", [Object.string [97]]⟩).1 = ⟨1, 2, 3⟩ :=
  ((C10_show_preserves_state ⟨1, 2, 3⟩ ⟨"Tj", [Object.string [97]]⟩).1
    (Or.inl rfl)).1

/-- An operation with malformed operands in the sense of the failure
semantics: wrong arity or a wrong operand kind for its recognized
operator. -/
def isMalformed (op : Operation) : Prop :=
  (op.operator = "Tf" ∧ (op.operands.length < 2 ∨
      Object.as_f32 (op.operands.getD 1 Object.null) = none)) ∨
  ((op.operator = "Td" ∨ op.operator = "TD") ∧ (op.operands.length < 2 ∨
      Object.as_f32 (op.operands.getD 0 Object.null) = none ∨
      Object.as_f32 (op.operands.getD 1 Object.null) = none)) ∨
  (op.operator = "Tm" ∧ (op.operands.length < 6 ∨
      Object.as_f32 (op.operands.getD 4 Object.null) = none ∨
      Object.as_f32 (op.operands.getD 5 Object.null) = none)) ∨
  (op.operator = "Tj" ∧
      ∀ o, op.operands.head? = some o → Object.isStringObj o = false) ∨
  (op.operator = "TJ" ∧
      ∀ o, op.operands.head? = some o → Object.isArrayObj o = false)

/-- C1 counterexample: a Tj whose first operand is present but is not a
ByteString does emit a TextItem (with empty text), refuting that nothing is
emitted for a malformed operation. -/
theorem C1_counterexample :
    extract [⟨"Tj", [Object.null]⟩] = [⟨[], 0, 0, 0⟩] ∧
    extract [⟨"Tj", [Object.null]⟩] ≠ [] := by
  constructor <;> decide

/-- C1 amended: a malformed operation never aborts the pass: the state is
unchanged and processing continues with the next operation; nothing is
emitted, except that a Tj with at least one operand (of the wrong kind)
emits exactly one TextItem with empty text at the current state. -/
theorem C1_malformed_is_absorbed (s : TextPlacementState) (op : Operation)
    (rest : List Operation) (h : isMalformed op) :
    (step s op).1 = s ∧
    (step s op).2 = (if op.operator = "Tj" ∧ 1 ≤ op.operands.length then
        [⟨[], s.x, s.y, s.font_size⟩] else []) ∧
    processOps s (op :: rest) = (step s op).2 ++ processOps s rest := by
  have hpair : step s op =
      (s, if op.operator = "Tj" ∧ 1 ≤ op.operands.length then
        [⟨[], s.x, s.y, s.font_size⟩] else []) := by
    rcases h with ⟨hop, hbad⟩ | ⟨hop, hbad⟩ | ⟨hop, hbad⟩ | ⟨hop, hbad⟩ |
      ⟨hop, hbad⟩
    · by_cases hl : 2 ≤ op.operands.length
      · rcases hbad with hlen | hnone
        · omega
        · simp only [List.getD_eq_getElem?_getD] at hnone
          simp [step, hop, hl, hnone]
      · simp [step, hop, hl]
    · rcases hop with hop | hop
      · by_cases hl : 2 ≤ op.operands.length
        · rcases hbad with hlen | h0 | h1
          · omega
          · simp only [List.getD_eq_getElem?_getD] at h0
            rcases hv : Object.as_f32 (op.operands[1]?.getD Object.null) with
              _ | v
            · simp [step, hop, hl, h0, hv]
            · simp [step, hop, hl, h0, hv]
          · simp only [List.getD_eq_getElem?_getD] at h1
            rcases hv : Object.as_f32 (op.operands[0]?.getD Object.null) with
              _ | v
            · simp [step, hop, hl, h1, hv]
            · simp [step, hop, hl, h1, hv]
        · simp [step, hop, hl]
      · by_cases hl : 2 ≤ op.operands.length
        · rcases hbad with hlen | h0 | h1
          · omega
          · simp only [List.getD_eq_getElem?_getD] at h0
            rcases hv : Object.as_f32 (op.operands[1]?.getD Object.null) with
              _ | v
            · simp [step, hop, hl, h0, hv]
            · simp [step, hop, hl, h0, hv]
          · simp only [List.getD_eq_getElem?_getD] at h1
            rcases hv : Object.as_f32 (op.operands[0]?.getD Object.null) with
              _ | v
            · simp [step, hop, hl, h1, hv]
            · simp [step, hop, hl, h1, hv]
        · simp [step, hop, hl]
    · by_cases hl : 6 ≤ op.operands.length
      · rcases hbad with hlen | h4 | h5
        · omega
        · simp only [List.getD_eq_getElem?_getD] at h4
          rcases hv : Object.as_f32 (op.operands[5]?.getD Object.null) with
            _ | v
          · simp [step, hop, hl, h4, hv]
          · simp [step, hop, hl, h4, hv]
        · simp only [List.getD_eq_getElem?_getD] at h5
          rcases hv : Object.as_f32 (op.operands[4]?.getD Object.null) with
            _ | v
          · simp [step, hop, hl, h5, hv]
          · simp [step, hop, hl, h5, hv]
      · simp [step, hop, hl]
    · cases hops : op.operands with
      | nil => simp [step, hop, hops]
      | cons o t =>
        have hstr := hbad o (by simp [hops])
        cases o <;> simp [step, hop, hops, extract_text_from_object]
        simp [Object.isStringObj] at hstr
    · cases hops : op.operands with
      | nil => simp [step, hop, hops]
      | cons o t =>
        have harr := hbad o (by simp [hops])
        cases o <;> simp [step, hop, hops]
        simp [Object.isArrayObj] at harr
  refine ⟨by rw [hpair], by rw [hpair], ?_⟩
  have hcons : processOps s (op :: rest) =
      (step s op).2 ++ processOps (step s op).1 rest := rfl
  rw [hcons, hpair]

/-- C1 witness: the malformed Tf (both operands ByteStrings, the second not
coercible to a number) is fully absorbed: state unchanged, nothing
emitted. -/
theorem C1_witness :
    (step initState ⟨"Tf", [Object.string [97], Object.string [98]]⟩).1 =
      initState ∧
    (step initState ⟨"Tf", [Object.string [97], Object.string [98]]⟩).2 =
      [] := by
  have h := C1_malformed_is_absorbed initState
    ⟨"Tf", [Object.string [97], Object.string [98]]⟩ []
    (Or.inl ⟨rfl, Or.inr rfl⟩)
  exact ⟨h.1, by simpa using h.2.1⟩

/-- C6: Tj decodes its ByteString operand strictly (empty text when the
bytes are not valid UTF-8) while TJ decodes each ByteString element lossily
(invalid sequences replaced by U+FFFD); the two policies disagree (witness
byte 0xFF), and under neither operator does a decode failure abort the
pass: processing continues with the remaining operations. -/
theorem C6_decode_policies (s : TextPlacementState) (b : List Nat) :
    (∀ rest, processOps s (⟨"Tj", [Object.string b]⟩ :: rest) =
        ⟨(utf8DecodeStrict b).getD [], s.x, s.y, s.font_size⟩ ::
          processOps s rest) ∧
    (∀ rest, processOps s (⟨"TJ", [Object.array [Object.string b]]⟩ :: rest) =
        ⟨utf8DecodeLossy b, s.x, s.y, s.font_size⟩ :: processOps s rest) ∧
    (utf8DecodeStrict b = none →
      (step s ⟨"Tj", [Object.string b]⟩).2 = [⟨[], s.x, s.y, s.font_size⟩]) ∧
    (utf8DecodeStrict [255]).getD [] ≠ utf8DecodeLossy [255] := by
  refine ⟨?_, ?_, ?_, by decide⟩
  · intro rest
    simp [processOps, step, extract_text_from_object]
  · intro rest
    simp [processOps, step, combinedText]
  · intro h
    simp [step, extract_text_from_object, h]

/-- C6 witness: on the invalid byte 0xFF, Tj emits empty text while TJ
emits the replacement character U+FFFD. -/
theorem C6_witness :
    (step ⟨0, 0, 0⟩ ⟨"Tj", [Object.string [255]]⟩).2 = [⟨[], 0, 0, 0⟩] ∧
    (step ⟨0, 0, 0⟩ ⟨"TJ", [Object.array [Object.string [255]]]⟩).2 =
      [⟨[65533], 0, 0, 0⟩] := by
  constructor
  · have h := (C6_decode_policies ⟨0, 0, 0⟩ [255]).2.2.1 (by decide)
    simpa using h
  · have h := (C6_decode_policies ⟨0, 0, 0⟩ [255]).2.1 []
    have h2 : utf8DecodeLossy [255] = [65533] := by decide
    simp only [processOps, h2] at h
    simpa using h

end RapidDoc
